import Mathlib

/-!
Verification development for the Opticom chat server (src/opticom.cpp).

The server keeps a vector of connected clients, a per-room bounded history of
formatted messages, and broadcasts each incoming line to every other client of
the sender's room.  The definitions below are a shallow embedding of the
functions of the C++ source; machine sockets are modelled as integers, the
client vector as a list, and the unordered_map of room histories as an
association list.
-/

/-- One connected client, mirroring struct ClientInfo (opticom.cpp lines 47-52):
a socket file descriptor, a display name, a peer address and a room name. -/
structure ClientInfo where
  socket : Int
  name : String
  ip : String
  room : String
deriving DecidableEq, Repr

/-- The mutable state of ChatServer that the claims are about: the clients
vector and the room_history map (opticom.cpp lines 58-59).  The unordered_map
is embedded as an association list from room name to message list. -/
structure ServerState where
  clients : List ClientInfo
  room_history : List (String × List String)
deriving DecidableEq, Repr

/-- MAX_HISTORY = 50 (opticom.cpp line 61). -/
def MAX_HISTORY : Nat := 50

/-- The body of addToHistory acting on one room's message vector
(opticom.cpp lines 193-199): if the vector already holds at least MAX_HISTORY
entries the front entry is erased, then the new message is pushed at the back. -/
def addToHistoryList (history : List String) (msg : String) : List String :=
  (if MAX_HISTORY ≤ history.length then history.drop 1 else history) ++ [msg]

/-- room_history[room] lookup as the C++ operator[] reads it: the stored vector
when the key is present, the empty vector otherwise. -/
def historyGet (m : List (String × List String)) (room : String) : List String :=
  match m.find? (fun p => p.1 == room) with
  | some p => p.2
  | none => []

/-- Store a room's vector back into the map: overwrite the entry when the key
is present, append a fresh entry otherwise (operator[] insertion). -/
def historySet (m : List (String × List String)) (room : String)
    (h : List String) : List (String × List String) :=
  if m.any (fun p => p.1 == room) then
    m.map (fun p => if p.1 == room then (p.1, h) else p)
  else m ++ [(room, h)]

/-- addToHistory (opticom.cpp lines 193-199) on the whole map: fetch the room's
vector (creating it empty when absent), evict the oldest entry when the cap is
reached, push the new message. -/
def addToHistory (m : List (String × List String)) (room : String)
    (msg : String) : List (String × List String) :=
  historySet m room (addToHistoryList (historyGet m room) msg)

/-- The snapshot phase of broadcastMessage (opticom.cpp lines 205-211): under
the clients mutex, collect the sockets of the clients whose room equals the
given room and whose socket differs from the sender's. -/
def broadcastTargets (clients : List ClientInfo) (room : String)
    (senderSocket : Int) : List Int :=
  (clients.filter (fun c => c.room == room && c.socket != senderSocket)).map
    (fun c => c.socket)

/-- Registration (opticom.cpp lines 152-155): clients.push_back under the
mutex.  There is no duplicate check of any kind in the source. -/
def registerClient (clients : List ClientInfo) (c : ClientInfo) :
    List ClientInfo :=
  clients ++ [c]

/-- removeClient (opticom.cpp lines 220-227): the erase/remove_if idiom deletes
every entry whose socket equals the argument, keeping the rest in order. -/
def removeClient (clients : List ClientInfo) (socket : Int) : List ClientInfo :=
  clients.filter (fun c => !(c.socket == socket))

/-- string::erase(remove(begin, end, newline), end) used on the received name
and on each received message (opticom.cpp lines 147 and 172): it deletes every
newline character of the string. -/
def stripNewlines (s : String) : String :=
  String.mk (s.data.filter (fun ch => ch != '\n'))

/-- The relay-loop message format (opticom.cpp line 173). -/
def formatMessage (ts name text : String) : String :=
  "[" ++ ts ++ "] " ++ name ++ ": " ++ text

/-- The byte sequence a send(sock, s.c_str(), n, 0) call transmits: the first n
bytes of the character buffer of s followed by its terminating 0 byte. -/
def cStrBytes (s : String) (n : Nat) : List Nat :=
  (s.data.map Char.toNat ++ [0]).take n

/-- The bytes of the join confirmation written at opticom.cpp lines 157-158:
the string is a concatenation of the literal, the room name and a newline, and
the length argument handed to send is room.size() + 15. -/
def joinConfirmationBytes (room : String) : List Nat :=
  cStrBytes ("Joined room: " ++ room ++ "\n") (room.length + 15)

/-- One write attempted by the delivery loop of broadcastMessage
(opticom.cpp lines 213-217): the message body, or the trailing newline. -/
inductive WriteAttempt where
  | msgWrite (sock : Int)
  | nlWrite (sock : Int)
deriving DecidableEq, Repr

/-- The delivery phase of broadcastMessage (opticom.cpp lines 213-217).
sendRes gives the operating-system result of the message send on each socket;
a negative result makes the loop skip the newline write of that target with a
continue statement and move on to the next target. -/
def deliverLoop (targets : List Int) (sendRes : Int → Int) : List WriteAttempt :=
  match targets with
  | [] => []
  | sock :: rest =>
      (if sendRes sock < 0 then [WriteAttempt.msgWrite sock]
       else [WriteAttempt.msgWrite sock, WriteAttempt.nlWrite sock])
        ++ deliverLoop rest sendRes

/-- The sockets to which the delivery loop attempted the message write. -/
def attemptedSockets (ws : List WriteAttempt) : List Int :=
  ws.filterMap (fun w =>
    match w with
    | WriteAttempt.msgWrite s => some s
    | WriteAttempt.nlWrite _ => none)

/-- The events of one broadcastMessage call, in program order: the mutex is
acquired, every client entry is scanned, the mutex is released at the closing
brace of the guard scope, and only then are the socket writes issued. -/
inductive BcastEvent where
  | lockAcquire
  | memberScan (sock : Int)
  | lockRelease
  | deliverWrite (sock : Int)
deriving DecidableEq, Repr

/-- The event trace of broadcastMessage (opticom.cpp lines 202-218): snapshot
under the lock, then delivery writes to the snapshot targets after release. -/
def broadcastTrace (clients : List ClientInfo) (room : String)
    (sender : Int) : List BcastEvent :=
  [BcastEvent.lockAcquire]
    ++ clients.map (fun c => BcastEvent.memberScan c.socket)
    ++ [BcastEvent.lockRelease]
    ++ (broadcastTargets clients room sender).map BcastEvent.deliverWrite

/-- Whether the clients mutex is held after a prefix of the trace: more
acquisitions than releases have happened. -/
def lockHeldAfter (tr : List BcastEvent) : Bool :=
  decide (tr.count BcastEvent.lockRelease < tr.count BcastEvent.lockAcquire)

/-- The value the name variable receives from the greeting recv
(opticom.cpp lines 144-146): the handler does not test the recv return value,
so when the peer has already disconnected (recv returns 0 or -1) the zeroed
buffer yields the empty string. -/
def recvString : Option String → String
  | none => ""
  | some s => s

/-- The observable outcome of the pre-loop part of handleClient
(opticom.cpp lines 139-163): the updated server state, the strings written
directly to the new client's socket in order, and the join announcement with
its broadcast targets. -/
structure SetupResult where
  st : ServerState
  directSends : List String
  announceMessage : String
  announceTargets : List Int
deriving DecidableEq, Repr

/-- The pre-loop part of handleClient (opticom.cpp lines 139-163): prompt for a
name, take whatever the recv left in the buffer and strip its newlines, assign
room general, push the client onto the vector, send the join confirmation,
send the room history, and broadcast the join announcement excluding the new
socket. -/
def handleClientSetup (st : ServerState) (sock : Int) (ip : String)
    (nameRecv : Option String) : SetupResult :=
  let name := stripNewlines (recvString nameRecv)
  let room := "general"
  let clients2 := registerClient st.clients ⟨sock, name, ip, room⟩
  { st := { st with clients := clients2 }
  , directSends :=
      ["Enter your name: ", "Joined room: " ++ room ++ "\n"]
        ++ (historyGet st.room_history room).map (fun m => m ++ "\n")
  , announceMessage := name ++ " joined the chat"
  , announceTargets := broadcastTargets clients2 room sock }

/-- The outcome of one relay-loop iteration (opticom.cpp lines 165-177) on a
received chunk raw: newlines are stripped, the timestamped message is formed,
appended to the room history and broadcast, excluding the sender's socket. -/
structure RelayResult where
  fullMessage : String
  newHistory : List (String × List String)
  targets : List Int
deriving DecidableEq, Repr

/-- One iteration of the relay loop (opticom.cpp lines 171-176), with the
wall-clock timestamp of the moment of receipt passed in as ts. -/
def relayLine (clients : List ClientInfo) (hist : List (String × List String))
    (senderSocket : Int) (name room ts raw : String) : RelayResult :=
  let message := stripNewlines raw
  let fullMessage := formatMessage ts name message
  { fullMessage := fullMessage
  , newHistory := addToHistory hist room fullMessage
  , targets := broadcastTargets clients room senderSocket }

/-- The relay loop run over a list of received lines, each paired with the
timestamp observed at its receipt; only the history mutation is accumulated
(the broadcast snapshots depend on the concurrent client vector). -/
def relayLoopRun (st : ServerState) (name room : String)
    (lines : List (String × String)) : ServerState :=
  lines.foldl
    (fun s tr =>
      { s with room_history :=
          (addToHistory s.room_history room
            (formatMessage tr.1 name (stripNewlines tr.2))) })
    st

/-- A whole handleClient execution (opticom.cpp lines 139-182): the setup
phase, the relay loop over the successfully received lines until recv reports
end of stream, and the removeClient call of the closing phase. -/
def handleClientRun (st : ServerState) (sock : Int) (ip : String)
    (nameRecv : Option String) (lines : List (String × String)) : ServerState :=
  let setup := handleClientSetup st sock ip nameRecv
  let afterLoop :=
    relayLoopRun setup.st (stripNewlines (recvString nameRecv)) "general" lines
  { afterLoop with clients := removeClient afterLoop.clients sock }

/-- The server-level events the interleaved handlers generate: a client
completing the join phase, a handler relaying one received line, a handler
disconnecting.  The room is the constant general, as assigned at
opticom.cpp line 150. -/
inductive ServerEvent where
  | evJoin (sock : Int) (name ip : String)
  | evRelay (sock : Int) (ts raw : String)
  | evDisconnect (sock : Int)
deriving DecidableEq, Repr

/-- The state transition and the broadcast messages of one server event.  A
join pushes the client and broadcasts the synthetic announcement without
touching room_history (opticom.cpp lines 152-163); a relay formats, stores and
broadcasts the line (lines 171-176); a disconnect runs removeClient. -/
def stepEvent (st : ServerState) (e : ServerEvent) : ServerState × List String :=
  match e with
  | ServerEvent.evJoin sock name ip =>
      ({ st with clients := registerClient st.clients ⟨sock, name, ip, "general"⟩ },
       [name ++ " joined the chat"])
  | ServerEvent.evRelay sock ts raw =>
      match st.clients.find? (fun c => c.socket == sock) with
      | none => (st, [])
      | some c =>
          let full := formatMessage ts c.name (stripNewlines raw)
          ({ st with room_history := addToHistory st.room_history c.room full },
           [full])
  | ServerEvent.evDisconnect sock =>
      ({ st with clients := removeClient st.clients sock }, [])

/-- Folding a list of server events over a state. -/
def runEvents (st : ServerState) (es : List ServerEvent) : ServerState :=
  es.foldl (fun s e => (stepEvent s e).1) st

/-- Unfolds membership in a broadcast target snapshot into the room and
sender-exclusion conditions of the filter. -/
theorem mem_broadcastTargets {clients : List ClientInfo} {room : String}
    {sender h : Int} :
    h ∈ broadcastTargets clients room sender ↔
      ∃ c, c ∈ clients ∧ c.socket = h ∧ c.room = room ∧ c.socket ≠ sender := by
  constructor
  · intro hmem
    simp only [broadcastTargets, List.mem_map, List.mem_filter,
      Bool.and_eq_true, beq_iff_eq, bne_iff_ne] at hmem
    obtain ⟨c, ⟨hc, hroom, hne⟩, hsock⟩ := hmem
    exact ⟨c, hc, hsock, hroom, hne⟩
  · rintro ⟨c, hc, rfl, hroom, hne⟩
    simp only [broadcastTargets, List.mem_map, List.mem_filter,
      Bool.and_eq_true, beq_iff_eq, bne_iff_ne]
    exact ⟨c, ⟨hc, hroom, hne⟩, rfl⟩

/-- C1: the delivery targets of a broadcast are exactly the registered
sessions of the given room other than the sender: membership in the target
snapshot is characterised by room equality and sender exclusion, the sender's
socket is never a target, and, under the registry invariant that sockets are
pairwise distinct, no client of a different room is ever a target. -/
theorem broadcastTargets_correct (clients : List ClientInfo) (room : String)
    (sender h : Int) :
    (h ∈ broadcastTargets clients room sender ↔
      ∃ c, c ∈ clients ∧ c.socket = h ∧ c.room = room ∧ c.socket ≠ sender)
    ∧ sender ∉ broadcastTargets clients room sender
    ∧ (List.Pairwise (fun a b => a.socket ≠ b.socket) clients →
        ∀ c, c ∈ clients → c.room ≠ room →
          c.socket ∉ broadcastTargets clients room sender) := by
  refine ⟨mem_broadcastTargets, ?_, ?_⟩
  · intro hmem
    obtain ⟨c, _, hsock, _, hne⟩ := mem_broadcastTargets.mp hmem
    exact hne hsock
  · intro hpw c hc hroom hmem
    obtain ⟨c2, hc2, hsock2, hroom2, _⟩ := mem_broadcastTargets.mp hmem
    have hcc : c2 ≠ c := fun he => hroom (he ▸ hroom2)
    have hsym : Symmetric (fun a b : ClientInfo => a.socket ≠ b.socket) :=
      fun a b hab => fun he => hab he.symm
    exact hpw.forall hsym hc2 hc hcc hsock2

/-- Witness for C1 at a concrete registry: with clients 1 and 2 in room
general and client 3 in room other, a broadcast in general from client 1
targets client 2, not the sender and not the other room's client. -/
theorem broadcastTargets_correct_witness :
    (2 : Int) ∈ broadcastTargets
        [⟨1, "a", "i1", "general"⟩, ⟨2, "b", "i2", "general"⟩,
         ⟨3, "c", "i3", "other"⟩] "general" 1
    ∧ (1 : Int) ∉ broadcastTargets
        [⟨1, "a", "i1", "general"⟩, ⟨2, "b", "i2", "general"⟩,
         ⟨3, "c", "i3", "other"⟩] "general" 1
    ∧ (3 : Int) ∉ broadcastTargets
        [⟨1, "a", "i1", "general"⟩, ⟨2, "b", "i2", "general"⟩,
         ⟨3, "c", "i3", "other"⟩] "general" 1 :=
  ⟨(broadcastTargets_correct
      [⟨1, "a", "i1", "general"⟩, ⟨2, "b", "i2", "general"⟩,
       ⟨3, "c", "i3", "other"⟩] "general" 1 2).1.mpr
      ⟨⟨2, "b", "i2", "general"⟩, by decide, rfl, rfl, by decide⟩,
   (broadcastTargets_correct
      [⟨1, "a", "i1", "general"⟩, ⟨2, "b", "i2", "general"⟩,
       ⟨3, "c", "i3", "other"⟩] "general" 1 1).2.1,
   (broadcastTargets_correct
      [⟨1, "a", "i1", "general"⟩, ⟨2, "b", "i2", "general"⟩,
       ⟨3, "c", "i3", "other"⟩] "general" 1 3).2.2 (by decide)
      ⟨3, "c", "i3", "other"⟩ (by decide) (by decide)⟩

/-- One append keeps a room history at or below the cap. -/
theorem addToHistoryList_length_le (h : List String) (m : String)
    (hle : h.length ≤ MAX_HISTORY) :
    (addToHistoryList h m).length ≤ MAX_HISTORY := by
  simp only [addToHistoryList, MAX_HISTORY] at *
  split <;>
    simp only [List.length_append, List.length_drop, List.length_cons,
      List.length_nil] <;>
    omega

/-- A run of appends from a history within the cap keeps a sliding window:
the result is the concatenation with the overflow dropped from the front. -/
theorem foldl_addToHistoryList (msgs : List String) :
    ∀ h : List String, h.length ≤ MAX_HISTORY →
      List.foldl addToHistoryList h msgs
        = (h ++ msgs).drop (h.length + msgs.length - MAX_HISTORY) := by
  induction msgs with
  | nil =>
      intro h hle
      simp only [List.foldl_nil, List.append_nil, List.length_nil, Nat.add_zero]
      rw [Nat.sub_eq_zero_of_le hle, List.drop_zero]
  | cons m rest ih =>
      intro h hle
      simp only [List.foldl_cons, List.length_cons]
      rw [ih (addToHistoryList h m) (addToHistoryList_length_le h m hle)]
      by_cases hc : MAX_HISTORY ≤ h.length
      · have h50 : h.length = MAX_HISTORY := le_antisymm hle hc
        cases h with
        | nil => simp [MAX_HISTORY] at h50
        | cons a t =>
            have ht : t.length + 1 = MAX_HISTORY := by
              simpa using h50
            have hd1 : addToHistoryList (a :: t) m = t ++ [m] := by
              simp [addToHistoryList, le_of_eq ht.symm]
            rw [hd1]
            simp only [List.length_append, List.length_cons, List.length_nil,
              List.append_assoc, List.singleton_append, List.cons_append]
            have ha : t.length + 1 + rest.length - MAX_HISTORY = rest.length := by
              omega
            have hb : t.length + 1 + (rest.length + 1) - MAX_HISTORY
                = rest.length + 1 := by
              omega
            rw [ha, hb, List.drop_succ_cons]
            simp
      · have hx : addToHistoryList h m = h ++ [m] := by
          simp [addToHistoryList, hc]
        rw [hx]
        simp only [List.length_append, List.length_cons, List.length_nil,
          List.append_assoc, List.singleton_append]
        congr 1
        omega

/-- C2: the cap is 50; after more than 50 appends into an initially absent
room the stored sequence has length exactly 50 and equals the last 50 appended
messages in append order; and any single append keeps every sequence that is
within the cap within the cap. -/
theorem history_cap (msgs : List String) (hN : MAX_HISTORY < msgs.length) :
    (List.foldl addToHistoryList [] msgs).length = MAX_HISTORY
    ∧ List.foldl addToHistoryList [] msgs = msgs.drop (msgs.length - MAX_HISTORY)
    ∧ MAX_HISTORY = 50
    ∧ ∀ (h : List String) (m : String), h.length ≤ MAX_HISTORY →
        (addToHistoryList h m).length ≤ MAX_HISTORY := by
  have hfold := foldl_addToHistoryList msgs [] (by simp)
  simp only [List.nil_append, List.length_nil, Nat.zero_add] at hfold
  refine ⟨?_, ?_, rfl, fun h m hle => addToHistoryList_length_le h m hle⟩
  · rw [hfold, List.length_drop]
    omega
  · exact hfold

/-- Witness for C2: 51 distinct appends leave exactly the last 50 messages. -/
theorem history_cap_witness :
    MAX_HISTORY < ((List.range 51).map (fun n => toString n)).length
    ∧ ((List.foldl addToHistoryList []
          ((List.range 51).map (fun n => toString n))).length = MAX_HISTORY
       ∧ List.foldl addToHistoryList [] ((List.range 51).map (fun n => toString n))
          = ((List.range 51).map (fun n => toString n)).drop
              (((List.range 51).map (fun n => toString n)).length - MAX_HISTORY)
       ∧ MAX_HISTORY = 50
       ∧ ∀ (h : List String) (m : String), h.length ≤ MAX_HISTORY →
           (addToHistoryList h m).length ≤ MAX_HISTORY) :=
  ⟨by decide, history_cap ((List.range 51).map (fun n => toString n)) (by decide)⟩

/-- C5, counterexample to the claimed duplicate check: pushing a session whose
socket 3 is already present does not fail and leaves socket 3 registered
twice, so the operation neither signals a duplicate nor preserves the
at-most-once invariant. -/
theorem registerClient_duplicate_counterexample :
    registerClient [⟨3, "alice", "a", "general"⟩] ⟨3, "bob", "b", "general"⟩
      = [⟨3, "alice", "a", "general"⟩, ⟨3, "bob", "b", "general"⟩]
    ∧ (registerClient [⟨3, "alice", "a", "general"⟩]
        ⟨3, "bob", "b", "general"⟩).countP (fun c => c.socket == 3) = 2 := by
  constructor
  · rfl
  · decide

/-- C5 as the code has it: registration unconditionally appends the session
under the lock — it always succeeds, keeps every previous entry, grows the
vector by one, and increments the number of entries carrying the new session's
socket whether or not that socket was already present. -/
theorem registerClient_always_appends (clients : List ClientInfo)
    (c : ClientInfo) :
    c ∈ registerClient clients c
    ∧ (∀ c2, c2 ∈ clients → c2 ∈ registerClient clients c)
    ∧ (registerClient clients c).length = clients.length + 1
    ∧ (registerClient clients c).countP (fun x => x.socket == c.socket)
        = clients.countP (fun x => x.socket == c.socket) + 1 := by
  refine ⟨?_, ?_, ?_, ?_⟩
  · simp [registerClient]
  · intro c2 hc2
    simp [registerClient, hc2]
  · simp [registerClient]
  · simp [registerClient, List.countP_append]

/-- C7: deregistering is idempotent, removing an absent socket changes
nothing, and a removed socket is never among the broadcast targets computed
from the resulting registry. -/
theorem removeClient_spec (clients : List ClientInfo) (sock : Int) :
    ((∀ c, c ∈ clients → c.socket ≠ sock) →
      removeClient clients sock = clients)
    ∧ removeClient (removeClient clients sock) sock = removeClient clients sock
    ∧ ∀ (room : String) (sender : Int),
        sock ∉ broadcastTargets (removeClient clients sock) room sender := by
  refine ⟨?_, ?_, ?_⟩
  · intro habs
    apply List.filter_eq_self.mpr
    intro c hc
    simpa using habs c hc
  · apply List.filter_eq_self.mpr
    intro c hc
    exact (List.mem_filter.mp hc).2
  · intro room sender hmem
    obtain ⟨c, hc, hsock, _, _⟩ := mem_broadcastTargets.mp hmem
    have := (List.mem_filter.mp hc).2
    simp only [Bool.not_eq_eq_eq_not, Bool.not_true, beq_eq_false_iff_ne,
      ne_eq] at this
    exact this hsock

/-- Witness for C7: socket 5 is absent from a one-client registry, so its
removal is a no-op, a second removal changes nothing, and 5 is not a broadcast
target afterwards. -/
theorem removeClient_spec_witness :
    removeClient [⟨1, "a", "i", "general"⟩] 5 = [⟨1, "a", "i", "general"⟩]
    ∧ removeClient (removeClient [⟨1, "a", "i", "general"⟩] 5) 5
        = removeClient [⟨1, "a", "i", "general"⟩] 5
    ∧ (5 : Int) ∉ broadcastTargets
        (removeClient [⟨1, "a", "i", "general"⟩] 5) "general" 1 :=
  ⟨(removeClient_spec [⟨1, "a", "i", "general"⟩] 5).1 (by decide),
   (removeClient_spec [⟨1, "a", "i", "general"⟩] 5).2.1,
   (removeClient_spec [⟨1, "a", "i", "general"⟩] 5).2.2 "general" 1⟩

/-- Writing one room's vector back into the history map changes exactly that
room's lookup and leaves every other room's lookup unchanged. -/
theorem historyGet_historySet (m : List (String × List String))
    (room : String) (h : List String) (room2 : String) :
    historyGet (historySet m room h) room2
      = if room2 = room then h else historyGet m room2 := by
  unfold historySet
  by_cases hany : m.any (fun p => p.1 == room) = true
  · rw [if_pos hany]
    unfold historyGet
    have hpred : ((fun p : String × List String => p.1 == room2)
        ∘ (fun p : String × List String => if p.1 == room then (p.1, h) else p))
        = fun p : String × List String => p.1 == room2 := by
      funext p
      by_cases hp : p.1 = room <;> simp [hp]
    rw [List.find?_map _ m, hpred]
    by_cases he : room2 = room
    · subst he
      cases hfind : m.find? (fun p => p.1 == room2) with
      | none =>
          have hs : (m.find? (fun p : String × List String => p.1 == room2)).isSome :=
            List.find?_isSome.mpr (List.any_eq_true.mp hany)
          rw [hfind] at hs
          simp at hs
      | some q =>
          have hq := List.find?_some hfind
          simp only [beq_iff_eq] at hq
          simp [hq]
    · cases hfind : m.find? (fun p => p.1 == room2) with
      | none => simp [he]
      | some q =>
          have hq := List.find?_some hfind
          simp only [beq_iff_eq] at hq
          have hq2 : ¬(q.1 = room) := fun hh => he (hq ▸ hh)
          simp [he, hq2]
  · rw [if_neg hany]
    unfold historyGet
    rw [List.find?_append]
    have hnone : m.find? (fun p : String × List String => p.1 == room) = none := by
      rw [List.find?_eq_none]
      intro p hp
      intro hcontra
      exact hany (List.any_eq_true.mpr ⟨p, hp, hcontra⟩)
    by_cases he : room2 = room
    · subst he
      rw [hnone]
      simp [List.find?]
    · have hbeq : (room == room2) = false := by
        simp only [beq_eq_false_iff_ne, ne_eq]
        exact fun hh => he hh.symm
      cases hfind : m.find? (fun p => p.1 == room2) with
      | none => simp [List.find?, hbeq, he]
      | some q => simp [he]

/-- addToHistory updates exactly the addressed room with the capped append. -/
theorem historyGet_addToHistory (m : List (String × List String))
    (room msg room2 : String) :
    historyGet (addToHistory m room msg) room2
      = if room2 = room then addToHistoryList (historyGet m room) msg
        else historyGet m room2 :=
  historyGet_historySet m room (addToHistoryList (historyGet m room) msg) room2

/-- Erasing the newlines of a line body with no embedded newline followed by
its trailing newline recovers the body. -/
theorem stripNewlines_trailing (text : String) (ht : '\n' ∉ text.data) :
    stripNewlines (text ++ "\n") = text := by
  have hdata : (text ++ "\n").data = text.data ++ ['\n'] := by
    cases text
    rfl
  have h1 : text.data.filter (fun ch => ch != '\n') = text.data := by
    apply List.filter_eq_self.mpr
    intro c hc
    simp only [bne_iff_ne, ne_eq, decide_eq_true_eq]
    exact fun he => ht (he ▸ hc)
  have h2 : (['\n'] : List Char).filter (fun ch => ch != '\n') = [] := rfl
  simp only [stripNewlines, hdata, List.filter_append, h1, h2, List.append_nil]

/-- C6: a relay-loop iteration over a received line trims the trailing
newline, formats the body with the receipt timestamp and the sender's name,
stores the formatted message in the room's history under the cap, and
broadcasts it to the room excluding the sender; a line that is only a newline
goes through the very same path with an empty body and is not suppressed. -/
theorem relayLine_spec (clients : List ClientInfo)
    (hist : List (String × List String)) (sock : Int)
    (name room ts text : String) (hnl : '\n' ∉ text.data) :
    (relayLine clients hist sock name room ts (text ++ "\n")).fullMessage
        = formatMessage ts name text
    ∧ historyGet
        (relayLine clients hist sock name room ts (text ++ "\n")).newHistory room
        = addToHistoryList (historyGet hist room) (formatMessage ts name text)
    ∧ (relayLine clients hist sock name room ts (text ++ "\n")).targets
        = broadcastTargets clients room sock
    ∧ (relayLine clients hist sock name room ts "\n").fullMessage
        = formatMessage ts name ""
    ∧ historyGet (relayLine clients hist sock name room ts "\n").newHistory room
        = addToHistoryList (historyGet hist room) (formatMessage ts name "")
    ∧ (relayLine clients hist sock name room ts "\n").targets
        = broadcastTargets clients room sock := by
  have hstrip : stripNewlines (text ++ "\n") = text := stripNewlines_trailing text hnl
  have hempty : stripNewlines "\n" = "" := rfl
  refine ⟨?_, ?_, rfl, ?_, ?_, rfl⟩
  · simp [relayLine, hstrip]
  · simp only [relayLine, hstrip]
    rw [historyGet_addToHistory]
    simp
  · simp [relayLine, hempty]
  · simp only [relayLine, hempty]
    rw [historyGet_addToHistory]
    simp

/-- Witness for C6 on a concrete line: the body hi has no embedded newline;
the received chunk is the body plus its trailing newline. -/
theorem relayLine_spec_witness :
    '\n' ∉ ("hi" : String).data
    ∧ ((relayLine [⟨1, "a", "i", "general"⟩, ⟨2, "b", "i", "general"⟩] []
          1 "a" "general" "10:00:00" ("hi" ++ "\n")).fullMessage
        = formatMessage "10:00:00" "a" "hi"
       ∧ historyGet
          (relayLine [⟨1, "a", "i", "general"⟩, ⟨2, "b", "i", "general"⟩] []
            1 "a" "general" "10:00:00" ("hi" ++ "\n")).newHistory "general"
          = addToHistoryList (historyGet [] "general")
              (formatMessage "10:00:00" "a" "hi")
       ∧ (relayLine [⟨1, "a", "i", "general"⟩, ⟨2, "b", "i", "general"⟩] []
            1 "a" "general" "10:00:00" ("hi" ++ "\n")).targets
          = broadcastTargets [⟨1, "a", "i", "general"⟩, ⟨2, "b", "i", "general"⟩]
              "general" 1
       ∧ (relayLine [⟨1, "a", "i", "general"⟩, ⟨2, "b", "i", "general"⟩] []
            1 "a" "general" "10:00:00" "\n").fullMessage
          = formatMessage "10:00:00" "a" ""
       ∧ historyGet
          (relayLine [⟨1, "a", "i", "general"⟩, ⟨2, "b", "i", "general"⟩] []
            1 "a" "general" "10:00:00" "\n").newHistory "general"
          = addToHistoryList (historyGet [] "general")
              (formatMessage "10:00:00" "a" "")
       ∧ (relayLine [⟨1, "a", "i", "general"⟩, ⟨2, "b", "i", "general"⟩] []
            1 "a" "general" "10:00:00" "\n").targets
          = broadcastTargets [⟨1, "a", "i", "general"⟩, ⟨2, "b", "i", "general"⟩]
              "general" 1) :=
  ⟨by decide,
   relayLine_spec [⟨1, "a", "i", "general"⟩, ⟨2, "b", "i", "general"⟩] []
     1 "a" "general" "10:00:00" "hi" (by decide)⟩

/-- C4 as the code behaves: the join confirmation send at opticom.cpp lines
157-158 is handed room.size() + 15 = 22 bytes, so the wire carries the 21
characters of the confirmation line followed by the terminating 0 byte of the
C string — one byte more than the specified message, after the newline. -/
theorem joinConfirmation_sends_nul_byte :
    joinConfirmationBytes "general"
      = ("Joined room: general\n").data.map Char.toNat ++ [0]
    ∧ (joinConfirmationBytes "general").length = 22
    ∧ ("Joined room: general\n").data.length = 21 := by
  refine ⟨?_, ?_, ?_⟩ <;> decide

/-- C8: the delivery loop attempts the message write on every snapshot target
in order whatever the per-socket send results are: a failed send only skips
that one target's newline write, never the remaining targets, and the loop
returns without surfacing any error. -/
theorem deliverLoop_attempts_all (targets : List Int) (sendRes : Int → Int) :
    attemptedSockets (deliverLoop targets sendRes) = targets := by
  induction targets with
  | nil => rfl
  | cons sock rest ih =>
      simp only [deliverLoop, attemptedSockets, List.filterMap_append] at ih ⊢
      by_cases hc : sendRes sock < 0 <;> simp [hc, ih]

/-- C3, counterexample: the handler never inspects the greeting recv result,
so on a peer that disconnects before sending a name (recv result none, zeroed
buffer) it still registers an empty-named session, still sends the join
confirmation and still broadcasts a join announcement — contradicting the
claim that such a session ends with no side effects. -/
theorem earlyDisconnect_counterexample :
    (handleClientSetup ⟨[], []⟩ 3 "127.0.0.1" none).st.clients
        = [⟨3, "", "127.0.0.1", "general"⟩]
    ∧ (handleClientSetup ⟨[], []⟩ 3 "127.0.0.1" none).st.clients ≠ []
    ∧ "Joined room: general\n"
        ∈ (handleClientSetup ⟨[], []⟩ 3 "127.0.0.1" none).directSends
    ∧ (handleClientSetup ⟨[], []⟩ 3 "127.0.0.1" none).announceMessage
        = " joined the chat" := by
  refine ⟨?_, ?_, ?_, ?_⟩ <;> decide

/-- C3 amended: the greeting recv result is not checked, so a peer that
disconnects before supplying a name is handled as a client whose display name
is the empty string — it is registered, the join confirmation and the history
replay are written to it, and an empty-named join announcement is broadcast;
the end of stream is then observed by the first relay-loop read, after which
the closing phase deregisters the session, restoring the registry and leaving
the history untouched. -/
theorem handleClient_early_disconnect (st : ServerState) (sock : Int)
    (ip : String) (habs : ∀ c, c ∈ st.clients → c.socket ≠ sock) :
    (handleClientSetup st sock ip none).st.clients
        = st.clients ++ [⟨sock, "", ip, "general"⟩]
    ∧ "Joined room: general\n" ∈ (handleClientSetup st sock ip none).directSends
    ∧ (handleClientSetup st sock ip none).announceMessage = " joined the chat"
    ∧ (handleClientSetup st sock ip none).st.room_history = st.room_history
    ∧ (handleClientRun st sock ip none []).clients = st.clients
    ∧ (handleClientRun st sock ip none []).room_history = st.room_history := by
  have hname : stripNewlines (recvString none) = "" := rfl
  refine ⟨rfl, ?_, rfl, rfl, ?_, rfl⟩
  · simp only [handleClientSetup, List.cons_append, List.nil_append]
    exact List.mem_cons.mpr (Or.inr (List.mem_cons.mpr (Or.inl rfl)))
  · show removeClient (registerClient st.clients ⟨sock, "", ip, "general"⟩) sock
        = st.clients
    unfold removeClient registerClient
    rw [List.filter_append]
    have ha : st.clients.filter (fun c => !(c.socket == sock)) = st.clients := by
      apply List.filter_eq_self.mpr
      intro c hc
      simpa using habs c hc
    have hb : ([⟨sock, "", ip, "general"⟩] : List ClientInfo).filter
        (fun c => !(c.socket == sock)) = [] := by
      simp
    rw [ha, hb, List.append_nil]

/-- Witness for C3's amended statement: a registry holding only socket 1, and
a new connection on socket 3 whose peer disconnected before naming itself. -/
theorem handleClient_early_disconnect_witness :
    (∀ c, c ∈ [(⟨1, "x", "i", "general"⟩ : ClientInfo)] → c.socket ≠ 3)
    ∧ ((handleClientSetup ⟨[⟨1, "x", "i", "general"⟩], []⟩ 3 "j" none).st.clients
          = [⟨1, "x", "i", "general"⟩] ++ [⟨3, "", "j", "general"⟩]
       ∧ "Joined room: general\n"
          ∈ (handleClientSetup ⟨[⟨1, "x", "i", "general"⟩], []⟩ 3 "j" none).directSends
       ∧ (handleClientSetup ⟨[⟨1, "x", "i", "general"⟩], []⟩ 3 "j" none).announceMessage
          = " joined the chat"
       ∧ (handleClientSetup ⟨[⟨1, "x", "i", "general"⟩], []⟩ 3 "j" none).st.room_history
          = ([] : List (String × List String))
       ∧ (handleClientRun ⟨[⟨1, "x", "i", "general"⟩], []⟩ 3 "j" none []).clients
          = [⟨1, "x", "i", "general"⟩]
       ∧ (handleClientRun ⟨[⟨1, "x", "i", "general"⟩], []⟩ 3 "j" none []).room_history
          = ([] : List (String × List String))) :=
  ⟨by decide,
   handleClient_early_disconnect ⟨[⟨1, "x", "i", "general"⟩], []⟩ 3 "j" (by decide)⟩

/-- The broadcast trace splits into the locked snapshot phase and the
unlocked delivery phase. -/
theorem broadcastTrace_split (clients : List ClientInfo) (room : String)
    (sender : Int) :
    broadcastTrace clients room sender
      = ([BcastEvent.lockAcquire]
          ++ clients.map (fun c => BcastEvent.memberScan c.socket)
          ++ [BcastEvent.lockRelease])
        ++ (broadcastTargets clients room sender).map BcastEvent.deliverWrite := by
  simp [broadcastTrace, List.append_assoc]

/-- C9: broadcast is two-phase — in its event trace, every member scan happens
while the clients mutex is held, and every delivery write happens after the
mutex has been released, so the lock is never held during socket output. -/
theorem broadcastTrace_lock_excludes_delivery (clients : List ClientInfo)
    (room : String) (sender : Int) :
    (∀ (i : Nat) (s : Int),
        (broadcastTrace clients room sender)[i]?
            = some (BcastEvent.deliverWrite s) →
        lockHeldAfter ((broadcastTrace clients room sender).take (i + 1)) = false)
    ∧ ∀ (i : Nat) (s : Int),
        (broadcastTrace clients room sender)[i]?
            = some (BcastEvent.memberScan s) →
        lockHeldAfter ((broadcastTrace clients room sender).take (i + 1)) = true := by
  have htr := broadcastTrace_split clients room sender
  constructor
  · intro i s hget
    rw [htr] at hget ⊢
    set pre := [BcastEvent.lockAcquire]
        ++ clients.map (fun c => BcastEvent.memberScan c.socket)
        ++ [BcastEvent.lockRelease] with hpre
    set post := (broadcastTargets clients room sender).map BcastEvent.deliverWrite
      with hpost
    have hnotin : BcastEvent.deliverWrite s ∉ pre := by
      intro hmem
      rw [hpre] at hmem
      simp at hmem
    have hip : pre.length ≤ i := by
      by_contra hlt
      push_neg at hlt
      rw [List.getElem?_append_left hlt] at hget
      exact hnotin (List.getElem?_mem hget)
    rw [List.take_append_eq_append_take,
      List.take_of_length_le (le_trans hip (Nat.le_succ i))]
    have hc1 : BcastEvent.lockRelease ∉ (post.take (i + 1 - pre.length)) := by
      intro hmem
      have := List.take_subset _ _ hmem
      rw [hpost] at this
      simp at this
    have hc2 : BcastEvent.lockAcquire ∉ (post.take (i + 1 - pre.length)) := by
      intro hmem
      have := List.take_subset _ _ hmem
      rw [hpost] at this
      simp at this
    simp only [lockHeldAfter, List.count_append,
      List.count_eq_zero.mpr hc1, List.count_eq_zero.mpr hc2]
    rw [hpre]
    have hr : ([BcastEvent.lockAcquire]
        ++ clients.map (fun c => BcastEvent.memberScan c.socket)
        ++ [BcastEvent.lockRelease]).count BcastEvent.lockRelease = 1 := by
      simp [List.count_append, List.count_singleton, List.count_eq_zero]
    have hq : ([BcastEvent.lockAcquire]
        ++ clients.map (fun c => BcastEvent.memberScan c.socket)
        ++ [BcastEvent.lockRelease]).count BcastEvent.lockAcquire = 1 := by
      simp [List.count_append, List.count_singleton, List.count_eq_zero]
    rw [hr, hq]
    simp
  · intro i s hget
    cases i with
    | zero =>
        rw [htr] at hget
        simp at hget
    | succ j =>
        have hcons : broadcastTrace clients room sender
            = BcastEvent.lockAcquire
              :: (clients.map (fun c => BcastEvent.memberScan c.socket)
                  ++ ([BcastEvent.lockRelease]
                      ++ (broadcastTargets clients room sender).map
                          BcastEvent.deliverWrite)) := by
          simp [broadcastTrace]
        rw [hcons] at hget ⊢
        set scans := clients.map (fun c => BcastEvent.memberScan c.socket)
          with hscans
        set rest := [BcastEvent.lockRelease]
            ++ (broadcastTargets clients room sender).map BcastEvent.deliverWrite
          with hrest
        rw [List.getElem?_cons_succ] at hget
        have hnotin : BcastEvent.memberScan s ∉ rest := by
          intro hmem
          rw [hrest] at hmem
          simp at hmem
        have hj : j < scans.length := by
          by_contra hge
          push_neg at hge
          rw [List.getElem?_append_right hge] at hget
          exact hnotin (List.getElem?_mem hget)
        rw [List.take_succ_cons, List.take_append_eq_append_take]
        have hz : j + 1 - scans.length = 0 := by omega
        rw [hz, List.take_zero, List.append_nil]
        have hc1 : BcastEvent.lockRelease ∉ (scans.take (j + 1)) := by
          intro hmem
          have := List.take_subset _ _ hmem
          rw [hscans] at this
          simp at this
        simp only [lockHeldAfter, List.count_cons,
          List.count_eq_zero.mpr hc1]
        simp

/-- Witness for C9 at a two-client registry: in the concrete trace the
delivery write to socket 2 sits at index 4, after the release, with the lock
no longer held, and the scan of socket 1 sits at index 1 with the lock held. -/
theorem broadcastTrace_lock_excludes_delivery_witness :
    (broadcastTrace [⟨1, "a", "i", "general"⟩, ⟨2, "b", "i", "general"⟩]
        "general" 1)[4]? = some (BcastEvent.deliverWrite 2)
    ∧ lockHeldAfter ((broadcastTrace
        [⟨1, "a", "i", "general"⟩, ⟨2, "b", "i", "general"⟩] "general" 1).take 5)
        = false
    ∧ (broadcastTrace [⟨1, "a", "i", "general"⟩, ⟨2, "b", "i", "general"⟩]
        "general" 1)[1]? = some (BcastEvent.memberScan 1)
    ∧ lockHeldAfter ((broadcastTrace
        [⟨1, "a", "i", "general"⟩, ⟨2, "b", "i", "general"⟩] "general" 1).take 2)
        = true :=
  ⟨by decide,
   (broadcastTrace_lock_excludes_delivery
      [⟨1, "a", "i", "general"⟩, ⟨2, "b", "i", "general"⟩] "general" 1).1
      4 2 (by decide),
   by decide,
   (broadcastTrace_lock_excludes_delivery
      [⟨1, "a", "i", "general"⟩, ⟨2, "b", "i", "general"⟩] "general" 1).2
      1 1 (by decide)⟩

/-- One server event keeps every stored history entry in the relay format:
joins and disconnects do not touch the history at all, and a relay stores
exactly one freshly formatted message. -/
theorem stepEvent_preserves_shape (st : ServerState) (e : ServerEvent)
    (hinv : ∀ room msg, msg ∈ historyGet st.room_history room →
      ∃ ts n t, msg = formatMessage ts n t) :
    ∀ room msg, msg ∈ historyGet (stepEvent st e).1.room_history room →
      ∃ ts n t, msg = formatMessage ts n t := by
  intro room msg hmem
  cases e with
  | evJoin sock name ip => exact hinv room msg hmem
  | evDisconnect sock => exact hinv room msg hmem
  | evRelay sock ts raw =>
      cases hfind : st.clients.find? (fun c => c.socket == sock) with
      | none =>
          simp only [stepEvent, hfind] at hmem
          exact hinv room msg hmem
      | some c =>
          simp only [stepEvent, hfind] at hmem
          rw [historyGet_addToHistory] at hmem
          by_cases he : room = c.room
          · rw [if_pos he] at hmem
            unfold addToHistoryList at hmem
            rcases List.mem_append.mp hmem with hin | hnew
            · have hold : msg ∈ historyGet st.room_history c.room := by
                by_cases hc : MAX_HISTORY ≤ (historyGet st.room_history c.room).length
                · rw [if_pos hc] at hin
                  exact List.drop_subset _ _ hin
                · rwa [if_neg hc] at hin
              exact hinv c.room msg hold
            · exact ⟨ts, c.name, stripNewlines raw, List.mem_singleton.mp hnew⟩
          · rw [if_neg he] at hmem
            exact hinv room msg hmem

/-- Along any event sequence, every stored history entry keeps the relay
format. -/
theorem runEvents_preserves_shape (es : List ServerEvent) :
    ∀ st : ServerState,
      (∀ room msg, msg ∈ historyGet st.room_history room →
        ∃ ts n t, msg = formatMessage ts n t) →
      ∀ room msg, msg ∈ historyGet (runEvents st es).room_history room →
        ∃ ts n t, msg = formatMessage ts n t := by
  induction es with
  | nil =>
      intro st hinv room msg hmem
      exact hinv room msg hmem
  | cons e rest ih =>
      intro st hinv room msg hmem
      exact ih (stepEvent st e).1 (stepEvent_preserves_shape st e hinv) room msg hmem

/-- C10: the synthetic join announcement is broadcast but never stored — a
join event broadcasts exactly the announcement string while leaving the whole
history map untouched, and along any sequence of joins, relays and
disconnects, every message held in any room's history is a relay-loop message
of the form timestamp bracket, name, colon, text, so a newcomer's replay never
contains a join announcement. -/
theorem joinAnnouncement_never_stored (st : ServerState)
    (es : List ServerEvent)
    (hinv : ∀ room msg, msg ∈ historyGet st.room_history room →
      ∃ ts n t, msg = formatMessage ts n t) :
    (∀ (sock : Int) (name ip : String),
        (stepEvent st (ServerEvent.evJoin sock name ip)).1.room_history
            = st.room_history
        ∧ (stepEvent st (ServerEvent.evJoin sock name ip)).2
            = [name ++ " joined the chat"])
    ∧ ∀ room msg, msg ∈ historyGet (runEvents st es).room_history room →
        ∃ ts n t, msg = formatMessage ts n t :=
  ⟨fun _ _ _ => ⟨rfl, rfl⟩, runEvents_preserves_shape es st hinv⟩

/-- Witness for C10: from an empty server, a join of socket 1 followed by a
relay from socket 1. -/
theorem joinAnnouncement_never_stored_witness :
    (∀ room msg, msg ∈ historyGet (ServerState.mk [] []).room_history room →
      ∃ ts n t, msg = formatMessage ts n t)
    ∧ ((∀ (sock : Int) (name ip : String),
          (stepEvent ⟨[], []⟩ (ServerEvent.evJoin sock name ip)).1.room_history
              = (ServerState.mk [] []).room_history
          ∧ (stepEvent ⟨[], []⟩ (ServerEvent.evJoin sock name ip)).2
              = [name ++ " joined the chat"])
       ∧ ∀ room msg,
          msg ∈ historyGet (runEvents ⟨[], []⟩
              [ServerEvent.evJoin 1 "a" "i",
               ServerEvent.evRelay 1 "10:00:00" "hi\n"]).room_history room →
          ∃ ts n t, msg = formatMessage ts n t) :=
  ⟨fun room msg hmem => absurd hmem (by simp [historyGet]),
   joinAnnouncement_never_stored ⟨[], []⟩
     [ServerEvent.evJoin 1 "a" "i", ServerEvent.evRelay 1 "10:00:00" "hi\n"]
     (fun room msg hmem => absurd hmem (by simp [historyGet]))⟩
